import Mathlib

/-!
Shallow embedding of the item-discovery and deduplication engine of
`mercari_telegram_bot_config_improved.py`, together with theorems checking
its specification.  Pure fragments of the Python are translated into Lean
functions; the mutable `seen_items` dict becomes an insertion-ordered
association list threaded through the functions; network calls become
explicit outcome parameters.  Python machine floats for the exchange rate
are modelled with `ℚ` (all claims evaluated here use exactly representable
values, and the only numeric operation applied to a rate is one
multiplication followed by truncation toward zero).
-/

namespace MercariBot

/-! ## Price parsing: `convert_price_to_yen` (source lines 165-200)

The two regular expressions of the source,
raw (pattern 1) `([\d,]+)\s*yen` with IGNORECASE and
raw (pattern 2) `(¥|US\$|\$)\s*([\d,]+)`,
are embedded as deterministic scans.  In both patterns the character
classes that consecutive pieces can consume (digits-and-comma, whitespace,
the literal letters) are pairwise disjoint, so the greedy leftmost match
that Python's backtracking engine finds coincides with the backtracking-free
greedy scan implemented below: shortening a greedy run can never let a later
piece of the pattern match.  `\d` and `\s` are modelled at ASCII width,
which is exact for every input considered in the claims. -/

def isDigitOrComma (c : Char) : Bool := c.isDigit || c = ','

def isPySpace (c : Char) : Bool :=
  c = ' ' || c = '\t' || c = '\n' || c = '\r' || c = '\x0b' || c = '\x0c'

/-- Case-insensitive test that a character list begins with the literal
letters of the currency-name token of pattern 1 (`yen`, IGNORECASE). -/
def startsWithYenCI : List Char → Bool
  | y :: e :: n :: _ =>
    (y = 'y' || y = 'Y') && (e = 'e' || e = 'E') && (n = 'n' || n = 'N')
  | _ => false

/-- One anchored attempt of pattern 1 at the head of `cs`: a nonempty
digits-and-comma run, then optional whitespace, then the token; yields
group 1 (the run). -/
def matchYenAt (cs : List Char) : Option (List Char) :=
  let run := cs.takeWhile isDigitOrComma
  if run.isEmpty then none
  else if startsWithYenCI ((cs.drop run.length).dropWhile isPySpace) then some run
  else none

/-- `re.search` for pattern 1: the attempt is made at every position from
the left, first success wins. -/
def searchYen : List Char → Option (List Char)
  | [] => none
  | c :: cs =>
    match matchYenAt (c :: cs) with
    | some g => some g
    | none => searchYen cs

inductive CurrencySymbol
  | yenSign
  | usDollar
  | dollarSign
  deriving Repr, DecidableEq

/-- After a currency symbol: `\s*` then group 2, a nonempty
digits-and-comma run. -/
def symAmountAfter (rest : List Char) : Option (List Char) :=
  let run := (rest.dropWhile isPySpace).takeWhile isDigitOrComma
  if run.isEmpty then none else some run

/-- One anchored attempt of pattern 2: the alternation tries the yen glyph,
then the two-letter dollar marker, then the bare dollar glyph, exactly in
the source's order. -/
def matchSymAt : List Char → Option (CurrencySymbol × List Char)
  | '¥' :: rest => (symAmountAfter rest).map (fun r => (CurrencySymbol.yenSign, r))
  | 'U' :: 'S' :: '$' :: rest => (symAmountAfter rest).map (fun r => (CurrencySymbol.usDollar, r))
  | '$' :: rest => (symAmountAfter rest).map (fun r => (CurrencySymbol.dollarSign, r))
  | _ => none

/-- `re.search` for pattern 2. -/
def searchSym : List Char → Option (CurrencySymbol × List Char)
  | [] => none
  | c :: cs =>
    match matchSymAt (c :: cs) with
    | some r => some r
    | none => searchSym cs

/-- `amount_str.replace(',', '')`. -/
def stripCommas (run : List Char) : List Char := run.filter (fun c => c ≠ ',')

/-- `int(...)` applied to a string of decimal digits. -/
def digitsToNat (ds : List Char) : ℕ :=
  ds.foldl (fun a c => 10 * a + (c.toNat - 48)) 0

/-- Python `int()` applied to a (rational-modelled) float: truncation
toward zero, which for a fraction in lowest terms is the numerator divided
by the denominator with T-division. -/
def truncTowardZero (q : ℚ) : ℤ :=
  Int.tdiv q.num (q.den : ℤ)

/-- Insert the grouping separator after every third character of a reversed
digit list: the thousands grouping of Python's format spec `{:,}` seen from
the right. -/
def chunk3Rev : List Char → List Char
  | a :: b :: c :: d :: rest => a :: b :: c :: ',' :: chunk3Rev (d :: rest)
  | l => l

/-- `f"{m:,}"` for a natural number. -/
def pyGroupNat (m : ℕ) : String :=
  ⟨(chunk3Rev (Nat.repr m).data.reverse).reverse⟩

/-- `f"{n:,}"` for an integer: Python groups the absolute digits and keeps
the sign in front. -/
def pyFormatComma (n : ℤ) : String :=
  (if n < 0 then "-" else "") ++ pyGroupNat n.natAbs

/-- `.replace(",", ".")` — the pattern is a single character, so the
replacement is a character map. -/
def commaToPeriod (s : String) : String :=
  ⟨s.data.map (fun c => if c = ',' then '.' else c)⟩

/-- `f"¥{n:,}".replace(",", ".")`. -/
def yenDisplay (n : ℤ) : String :=
  commaToPeriod ("¥" ++ pyFormatComma n)

/-- `convert_price_to_yen(text, rate)` (lines 165-200).  Pattern 1 (bare
yen) is tried first and applies no rate; otherwise pattern 2: a dollar
amount is multiplied by the rate and truncated toward zero, a yen-glyph
amount is taken as-is; no match at either step, or a matched run whose
digits are empty after comma-stripping (Python's `int` raising
`ValueError`), yields `(none, none)`. -/
def convert_price_to_yen (text : String) (rate : ℚ) : Option String × Option ℤ :=
  match searchYen text.data with
  | some run =>
    let ds := stripCommas run
    if ds.isEmpty then (none, none)
    else
      let amount : ℤ := (digitsToNat ds : ℕ)
      (some (yenDisplay amount), some amount)
  | none =>
    match searchSym text.data with
    | none => (none, none)
    | some (sym, run) =>
      let ds := stripCommas run
      if ds.isEmpty then (none, none)
      else
        let amount : ℤ := (digitsToNat ds : ℕ)
        let yen : ℤ :=
          match sym with
          | CurrencySymbol.usDollar => truncTowardZero ((amount : ℚ) * rate)
          | CurrencySymbol.dollarSign => truncTowardZero ((amount : ℚ) * rate)
          | CurrencySymbol.yenSign => amount
        (some (yenDisplay yen), some yen)

/-! ## Exchange rate: `get_usd_to_jpy_rate` (lines 515-529) and
`get_exchange_rate_with_fallback` (lines 103-129)

The live HTTP fetch is abstracted into an outcome: the fetched JPY rate, a
`requests` exception, or a `KeyError`/`TypeError` while reading the JSON.
`get_usd_to_jpy_rate` catches exactly these failure classes itself and
returns the 145.0 fallback instead of raising, so the composed behaviour of
the caller's `try`/`except` (lines 116-129) is that the `except` branch —
the one that would return a stale cached rate — is never reached for a
fetch failure; the embedding below is the composition of the two source
functions.  Wall-clock times are naturals (seconds); `current_time - t` is
compared with the cache duration, and truncating natural subtraction takes
the same branch as Python's float subtraction for every ordering of the two
times. -/

inductive RateFetchOutcome
  | success (rate : ℚ)
  | requestError
  | parseError
  deriving Repr, DecidableEq

def get_usd_to_jpy_rate : RateFetchOutcome → ℚ
  | RateFetchOutcome.success r => r
  | RateFetchOutcome.requestError => 145
  | RateFetchOutcome.parseError => 145

structure RateCache where
  cached_exchange_rate : Option ℚ
  last_exchange_rate_update : Option ℕ
  deriving Repr, DecidableEq

def EXCHANGE_RATE_CACHE_DURATION : ℕ := 3600

def get_exchange_rate_with_fallback (st : RateCache) (current_time : ℕ)
    (fetch : RateFetchOutcome) : ℚ × RateCache :=
  match st.cached_exchange_rate, st.last_exchange_rate_update with
  | some c, some t =>
    if current_time - t < EXCHANGE_RATE_CACHE_DURATION then (c, st)
    else
      let rate := get_usd_to_jpy_rate fetch
      (rate, ⟨some rate, some current_time⟩)
  | _, _ =>
    let rate := get_usd_to_jpy_rate fetch
    (rate, ⟨some rate, some current_time⟩)

/-! ## Retry loop: `fetch_with_retry` (lines 203-212)

`attempts i` is the outcome of the HTTP GET on attempt `i` (`some r` a
response, `none` a `RequestException`).  The result records what the
function does — return a response, raise on the last failed attempt, or
fall off the end of the loop returning Python's implicit `None` (only
possible when `max_retries = 0`) — paired with the list of sleep durations
performed between attempts.  The guard `attempt == attempt == max_retries - 1`
of line 210 is a chained comparison equivalent to `attempt == max_retries - 1`. -/

inductive RetryOutcome (R : Type)
  | success (r : R)
  | raised
  | fellThrough
  deriving Repr, DecidableEq

/-- The `for attempt in range(max_retries)` loop: `i` is the attempt index
and the second argument the number of attempts still available,
`max_retries - i`, so the loop body runs exactly while `i < max_retries`. -/
def fetchLoop {R : Type} (attempts : ℕ → Option R) (max_retries delay : ℕ) :
    ℕ → ℕ → RetryOutcome R × List ℕ
  | _, 0 => (RetryOutcome.fellThrough, [])
  | i, remaining + 1 =>
    match attempts i with
    | some r => (RetryOutcome.success r, [])
    | none =>
      if i = max_retries - 1 then (RetryOutcome.raised, [])
      else
        let rest := fetchLoop attempts max_retries delay (i + 1) remaining
        (rest.1, delay * (i + 1) :: rest.2)

def fetch_with_retry {R : Type} (attempts : ℕ → Option R) (max_retries delay : ℕ) :
    RetryOutcome R × List ℕ :=
  fetchLoop attempts max_retries delay 0 max_retries

/-! ## Title translation: `translate_title_with_fallback` (lines 86-101)

`translated = some title_en` models a translation call that returned an
object whose `.text` is `title_en`; `none` models every fallback path (an
exception, a falsy result, or a result without `.text`), all of which
return the original title. -/

/-- Python `str.strip()` (ASCII whitespace, exact for the inputs
considered): leading and trailing whitespace removed. -/
def pyStrip (s : String) : String :=
  ⟨((s.data.dropWhile isPySpace).reverse.dropWhile isPySpace).reverse⟩

def translate_title_with_fallback (title : String) (translated : Option String) : String :=
  match translated with
  | some title_en =>
    if title_en ≠ "" ∧ pyStrip title_en ≠ "" ∧ title_en ≠ title then
      title_en ++ " (" ++ title ++ ")"
    else title
  | none => title

/-! ## Item signature: MD5 (line 439)

`hashlib.md5((item['title'].lower() + item['image_url']).encode()).hexdigest()`
is embedded with a full MD5 (RFC 1321) over the UTF-8 bytes of the string.
32-bit machine words are naturals reduced modulo `2 ^ 32`.  `str.lower` is
modelled at ASCII width, exact for ASCII and for uncased characters. -/

def pyLowerChar (c : Char) : Char :=
  if 'A' ≤ c ∧ c ≤ 'Z' then Char.ofNat (c.toNat + 32) else c

def pyLower (s : String) : String := ⟨s.data.map pyLowerChar⟩

/-- UTF-8 encoding of one code point, as byte values. -/
def utf8Char (c : Char) : List ℕ :=
  let n := c.toNat
  if n < 128 then [n]
  else if n < 2048 then [192 + n / 64, 128 + n % 64]
  else if n < 65536 then [224 + n / 4096, 128 + n / 64 % 64, 128 + n % 64]
  else [240 + n / 262144, 128 + n / 4096 % 64, 128 + n / 64 % 64, 128 + n % 64]

/-- `.encode()`: the UTF-8 bytes of a string. -/
def strBytes (s : String) : List ℕ := (s.data.map utf8Char).flatten

def M32 : ℕ := 4294967296

def add32 (a b : ℕ) : ℕ := (a + b) % M32

/-- Bitwise complement at 32 bits. -/
def not32 (a : ℕ) : ℕ := Nat.xor a 4294967295

/-- Left rotation of a 32-bit word: the wrapped high bits land below the
shifted low bits, so the bitwise-or of the two shifted halves is their sum. -/
def rotl32 (x s : ℕ) : ℕ := x % 2 ^ (32 - s) * 2 ^ s + x / 2 ^ (32 - s)

def md5S : List ℕ :=
  [7, 12, 17, 22, 7, 12, 17, 22, 7, 12, 17, 22, 7, 12, 17, 22,
   5, 9, 14, 20, 5, 9, 14, 20, 5, 9, 14, 20, 5, 9, 14, 20,
   4, 11, 16, 23, 4, 11, 16, 23, 4, 11, 16, 23, 4, 11, 16, 23,
   6, 10, 15, 21, 6, 10, 15, 21, 6, 10, 15, 21, 6, 10, 15, 21]

def md5K : List ℕ :=
  [0xd76aa478, 0xe8c7b756, 0x242070db, 0xc1bdceee,
   0xf57c0faf, 0x4787c62a, 0xa8304613, 0xfd469501,
   0x698098d8, 0x8b44f7af, 0xffff5bb1, 0x895cd7be,
   0x6b901122, 0xfd987193, 0xa679438e, 0x49b40821,
   0xf61e2562, 0xc040b340, 0x265e5a51, 0xe9b6c7aa,
   0xd62f105d, 0x02441453, 0xd8a1e681, 0xe7d3fbc8,
   0x21e1cde6, 0xc33707d6, 0xf4d50d87, 0x455a14ed,
   0xa9e3e905, 0xfcefa3f8, 0x676f02d9, 0x8d2a4c8a,
   0xfffa3942, 0x8771f681, 0x6d9d6122, 0xfde5380c,
   0xa4beea44, 0x4bdecfa9, 0xf6bb4b60, 0xbebfbc70,
   0x289b7ec6, 0xeaa127fa, 0xd4ef3085, 0x04881d05,
   0xd9d4d039, 0xe6db99e5, 0x1fa27cf8, 0xc4ac5665,
   0xf4292244, 0x432aff97, 0xab9423a7, 0xfc93a039,
   0x655b59c3, 0x8f0ccc92, 0xffeff47d, 0x85845dd1,
   0x6fa87e4f, 0xfe2ce6e0, 0xa3014314, 0x4e0811a1,
   0xf7537e82, 0xbd3af235, 0x2ad7d2bb, 0xeb86d391]

structure MD5State where
  a : ℕ
  b : ℕ
  c : ℕ
  d : ℕ
  deriving Repr, DecidableEq

def md5F (i b c d : ℕ) : ℕ :=
  if i < 16 then Nat.lor (Nat.land b c) (Nat.land (not32 b) d)
  else if i < 32 then Nat.lor (Nat.land d b) (Nat.land (not32 d) c)
  else if i < 48 then Nat.xor (Nat.xor b c) d
  else Nat.xor c (Nat.lor b (not32 d))

def md5G (i : ℕ) : ℕ :=
  if i < 16 then i
  else if i < 32 then (5 * i + 1) % 16
  else if i < 48 then (3 * i + 5) % 16
  else 7 * i % 16

def md5Round (m : List ℕ) (st : MD5State) (i : ℕ) : MD5State :=
  let x := add32 (add32 (add32 st.a (md5F i st.b st.c st.d)) (md5K.getD i 0)) (m.getD (md5G i) 0)
  ⟨st.d, add32 st.b (rotl32 x (md5S.getD i 0)), st.b, st.c⟩

def md5Block (st : MD5State) (m : List ℕ) : MD5State :=
  let r := (List.range 64).foldl (md5Round m) st
  ⟨add32 st.a r.a, add32 st.b r.b, add32 st.c r.c, add32 st.d r.d⟩

/-- Little-endian 32-bit words of a byte list (whole 4-byte groups). -/
def leWords : List ℕ → List ℕ
  | b0 :: b1 :: b2 :: b3 :: rest =>
    (b0 + 256 * b1 + 65536 * b2 + 16777216 * b3) :: leWords rest
  | _ => []

/-- Little-endian 8-byte rendering of the 64-bit message bit length. -/
def leBytes8 (n : ℕ) : List ℕ :=
  [n % 256, n / 256 % 256, n / 65536 % 256, n / 16777216 % 256,
   n / 4294967296 % 256, n / 1099511627776 % 256,
   n / 281474976710656 % 256, n / 72057594037927936 % 256]

/-- MD5 padding: a 1-bit, zeros to 56 mod 64, then the bit length. -/
def md5Pad (msg : List ℕ) : List ℕ :=
  msg ++ 128 :: List.replicate ((56 + 64 - (msg.length + 1) % 64) % 64) 0
    ++ leBytes8 (msg.length * 8 % 18446744073709551616)

/-- Split into 64-byte chunks.  The first argument is fuel bounding the
number of steps; every step consumes a nonempty list, so fuel equal to the
list length always suffices. -/
def md5ChunksFuel : ℕ → List ℕ → List (List ℕ)
  | 0, _ => []
  | _, [] => []
  | fuel + 1, b :: rest => ((b :: rest).take 64) :: md5ChunksFuel fuel ((b :: rest).drop 64)

def md5Chunks (l : List ℕ) : List (List ℕ) := md5ChunksFuel l.length l

def hexDigit (n : ℕ) : Char :=
  if n < 10 then Char.ofNat (48 + n) else Char.ofNat (87 + n)

def hexByte (b : ℕ) : List Char := [hexDigit (b / 16), hexDigit (b % 16)]

/-- Lowercase hex of one state word, least significant byte first. -/
def md5WordHex (w : ℕ) : List Char :=
  hexByte (w % 256) ++ hexByte (w / 256 % 256) ++ hexByte (w / 65536 % 256)
    ++ hexByte (w / 16777216 % 256)

def md5InitState : MD5State := ⟨0x67452301, 0xefcdab89, 0x98badcfe, 0x10325476⟩

def md5hex (msg : List ℕ) : String :=
  let st := (md5Chunks (md5Pad msg)).foldl (fun s ch => md5Block s (leWords ch)) md5InitState
  ⟨md5WordHex st.a ++ md5WordHex st.b ++ md5WordHex st.c ++ md5WordHex st.d⟩

/-- Line 439: the signature under which a processed item is stored. -/
def item_signature (title image_url : String) : String :=
  md5hex (strBytes (pyLower title ++ image_url))

/-! ## The seen-items store (lines 441-459 and 503-512)

`seen_items` is a Python dict, insertion-ordered: embedded as an
association list in insertion order.  A Python dict key is unique; lookup
finds the first matching key, insertion of a fresh key appends at the end,
and assigning to the entry of an existing key (lines 455-456) keeps the
key's position — embedded as an order-preserving map. -/

structure SeenEntry where
  price : ℤ
  timestamp : String
  deriving Repr, DecidableEq

abbrev SeenStore := List (String × SeenEntry)

def lookupSig : SeenStore → String → Option SeenEntry
  | [], _ => none
  | (k, e) :: rest, sig => if k = sig then some e else lookupSig rest sig

/-- Overwrite the entry stored under `sig`, in place: the key keeps its
position (a dict key occurs at most once; any occurrence is overwritten). -/
def updateSig : SeenStore → String → SeenEntry → SeenStore
  | [], _, _ => []
  | (k, e0) :: rest, sig, e2 =>
    if k = sig then (sig, e2) :: updateSig rest sig e2
    else (k, e0) :: updateSig rest sig e2

inductive ActionDecision
  | NEW
  | CHEAPER
  | UNCHANGED
  deriving Repr, DecidableEq

/-- The three-way decision of lines 444-459: absent signature → NEW and an
entry `{price, timestamp}` is inserted; present and strictly cheaper →
CHEAPER and both fields of the entry are overwritten; otherwise UNCHANGED
and the store is untouched. -/
def evaluate_and_update (seen : SeenStore) (sig : String) (amount : ℤ) (ts : String) :
    ActionDecision × SeenStore :=
  match lookupSig seen sig with
  | none => (ActionDecision.NEW, seen ++ [(sig, ⟨amount, ts⟩)])
  | some entry =>
    if amount < entry.price then (ActionDecision.CHEAPER, updateSig seen sig ⟨amount, ts⟩)
    else (ActionDecision.UNCHANGED, seen)

/-- `save_seen_items` (lines 503-512): `dict(list(seen_items.items())[-MAX_SEEN_ITEMS:])`.
For a positive `k` the Python slice `[-k:]` keeps the last `min(k, len)`
items; for `k = 0` it is `[0:]`, the whole list — hence the zero case. -/
def save_seen_items (seen : SeenStore) (maxSeenItems : ℕ) : SeenStore :=
  if maxSeenItems = 0 then seen
  else seen.drop (seen.length - maxSeenItems)

/-! ## The discovery step (lines 344-470 and 590-607)

The first loop of `fetch_items` builds `items` dicts whose `title` field is
the translation-processed `full_title` (line 370); the second loop
(lines 424-463) parses the price, drops falsy conversions and records with a
missing url or image, hashes, and applies the three-way decision,
accumulating `new_items` in source order.  `main` (lines 596-607) reverses
the accumulated list before emitting it to Telegram.  Each processed record
carries the wall-clock timestamp `datetime.now()` read in its own loop
iteration. -/

structure Item where
  title : String
  price : String
  url : String
  image_url : String
  deriving Repr, DecidableEq

/-- Lines 366-397: a raw scraped listing becomes an `items` entry whose
title is `full_title`. -/
def build_item (raw_title price_text url image_url : String)
    (translated : Option String) : Item :=
  ⟨translate_title_with_fallback raw_title translated, price_text, url, image_url⟩

/-- The tuple appended to `new_items`:
`(title, url, image_url, formatted_price, timestamp)`. -/
abbrev ActionableItem := String × String × String × String × String

/-- One iteration of the second loop of `fetch_items` (lines 424-463).
`if not formatted_price or not numeric_price` skips a `None` or empty
display and a `None` or zero amount (Python falsiness); a missing url or
image also skips. -/
def process_item (rate : ℚ) (ts : String) (item : Item)
    (seen : SeenStore) (acc : List ActionableItem) : SeenStore × List ActionableItem :=
  match convert_price_to_yen item.price rate with
  | (some formatted_price, some numeric_price) =>
    if formatted_price = "" ∨ numeric_price = 0 then (seen, acc)
    else if item.url = "" ∨ item.image_url = "" then (seen, acc)
    else
      let sig := item_signature item.title item.image_url
      match evaluate_and_update seen sig numeric_price ts with
      | (ActionDecision.UNCHANGED, s2) => (s2, acc)
      | (_, s2) => (s2, acc ++ [(item.title, item.url, item.image_url, formatted_price, ts)])
  | _ => (seen, acc)

/-- The whole second loop, threading the store and the accumulator through
the records in source order. -/
def process_items (rate : ℚ) :
    SeenStore → List ActionableItem → List (Item × String) → SeenStore × List ActionableItem
  | seen, acc, [] => (seen, acc)
  | seen, acc, (item, ts) :: rest =>
    process_items rate (process_item rate ts item seen acc).1
      (process_item rate ts item seen acc).2 rest

/-- Lines 596-607: an empty batch sends nothing; a nonempty batch is
reversed in place and emitted in the reversed order. -/
def send_batch (items : List ActionableItem) : List ActionableItem :=
  if items.isEmpty then [] else items.reverse

/-- Repeated evaluations of one signature against an evolving store: each
element of `evs` is the amount and timestamp of one later observation. -/
def evalSeq (sig : String) : SeenStore → List (ℤ × String) → SeenStore
  | seen, [] => seen
  | seen, (a, ts) :: rest => evalSeq sig (evaluate_and_update seen sig a ts).2 rest

/-! ## Store lemmas -/

theorem lookupSig_append_self (seen : SeenStore) (sig : String) (e : SeenEntry)
    (h : lookupSig seen sig = none) :
    lookupSig (seen ++ [(sig, e)]) sig = some e := by
  induction seen with
  | nil => simp [lookupSig]
  | cons p rest ih =>
    obtain ⟨k, e0⟩ := p
    by_cases hk : k = sig
    · simp [lookupSig, hk] at h
    · simp only [List.cons_append, lookupSig, hk, if_false] at h ⊢
      exact ih h

theorem lookupSig_update_self (seen : SeenStore) (sig : String) (e e2 : SeenEntry)
    (h : lookupSig seen sig = some e) :
    lookupSig (updateSig seen sig e2) sig = some e2 := by
  induction seen with
  | nil => simp [lookupSig] at h
  | cons p rest ih =>
    obtain ⟨k, e0⟩ := p
    by_cases hk : k = sig
    · simp [updateSig, lookupSig, hk]
    · simp only [lookupSig, hk, if_false] at h
      simpa [updateSig, lookupSig, hk] using ih h

theorem lookupSig_update_ne (seen : SeenStore) (sig sig2 : String) (e2 : SeenEntry)
    (h : sig2 ≠ sig) :
    lookupSig (updateSig seen sig e2) sig2 = lookupSig seen sig2 := by
  induction seen with
  | nil => rfl
  | cons p rest ih =>
    obtain ⟨k, e0⟩ := p
    by_cases hk : k = sig
    · have hk2 : sig ≠ sig2 := fun hx => h hx.symm
      subst hk
      simpa [updateSig, lookupSig, hk2] using ih
    · by_cases hk2 : k = sig2
      · simp [updateSig, lookupSig, hk, hk2, h]
      · simpa [updateSig, lookupSig, hk, hk2] using ih

theorem mem_updateSig (seen : SeenStore) (sig : String) (e2 : SeenEntry)
    (p : String × SeenEntry) (h : p ∈ updateSig seen sig e2) :
    p = (sig, e2) ∨ p ∈ seen := by
  induction seen with
  | nil => simp [updateSig] at h
  | cons q rest ih =>
    obtain ⟨k, e0⟩ := q
    by_cases hk : k = sig
    · simp only [updateSig, hk, if_true, List.mem_cons] at h
      rcases h with h | h
      · exact Or.inl h
      · rcases ih h with h2 | h2
        · exact Or.inl h2
        · exact Or.inr (List.mem_cons_of_mem _ h2)
    · simp only [updateSig, hk, if_false, List.mem_cons] at h
      rcases h with h | h
      · exact Or.inr (by simp [h])
      · rcases ih h with h2 | h2
        · exact Or.inl h2
        · exact Or.inr (List.mem_cons_of_mem _ h2)

/-- After any single evaluation, evaluating the same signature at the same
amount again decides UNCHANGED and leaves the store as it was. -/
theorem eval_after_eval (seen : SeenStore) (sig : String) (amount : ℤ) (ts ts2 : String) :
    evaluate_and_update (evaluate_and_update seen sig amount ts).2 sig amount ts2
      = (ActionDecision.UNCHANGED, (evaluate_and_update seen sig amount ts).2) := by
  cases h : lookupSig seen sig with
  | none =>
    have h2 := lookupSig_append_self seen sig ⟨amount, ts⟩ h
    simp [evaluate_and_update, h, h2]
  | some e =>
    by_cases hc : amount < e.price
    · have h2 := lookupSig_update_self seen sig e ⟨amount, ts⟩ h
      simp [evaluate_and_update, h, hc, h2]
    · simp [evaluate_and_update, h, hc]

theorem lookupSig_evalSeq_min (sig : String) (evs : List (ℤ × String)) :
    ∀ (seen : SeenStore) (p : ℤ) (t : String), lookupSig seen sig = some ⟨p, t⟩ →
      ∃ t2, lookupSig (evalSeq sig seen evs) sig
          = some ⟨(evs.map Prod.fst).foldl min p, t2⟩ := by
  induction evs with
  | nil =>
    intro seen p t h
    exact ⟨t, by simpa [evalSeq] using h⟩
  | cons ev rest ih =>
    intro seen p t h
    obtain ⟨a, ts⟩ := ev
    by_cases hc : a < p
    · have h2 := lookupSig_update_self seen sig ⟨p, t⟩ ⟨a, ts⟩ h
      have h3 := ih (updateSig seen sig ⟨a, ts⟩) a ts h2
      simpa [evalSeq, evaluate_and_update, h, hc, min_eq_right (le_of_lt hc)] using h3
    · have h3 := ih seen p t h
      simpa [evalSeq, evaluate_and_update, h, hc, min_eq_left (not_lt.mp hc)] using h3

theorem truncTowardZero_intCast (n : ℤ) : truncTowardZero ((n : ℚ)) = n := by
  simp [truncTowardZero, Rat.num_intCast, Rat.den_intCast, Int.tdiv_one]

/-! ## Claim theorems -/

/-- C1: `evaluate_and_update` is a three-way decision.  An absent signature
decides NEW and appends the entry `⟨amount, ts⟩` under the signature; a
present signature with a strictly lower amount decides CHEAPER, overwrites
the entry's price and timestamp and touches no other signature; otherwise
it decides UNCHANGED and the store is not mutated at all. -/
theorem evaluate_and_update_three_way (seen : SeenStore) (sig : String)
    (amount : ℤ) (ts : String) :
    (lookupSig seen sig = none →
      evaluate_and_update seen sig amount ts
        = (ActionDecision.NEW, seen ++ [(sig, ⟨amount, ts⟩)])) ∧
    (∀ e : SeenEntry, lookupSig seen sig = some e → amount < e.price →
      evaluate_and_update seen sig amount ts
          = (ActionDecision.CHEAPER, updateSig seen sig ⟨amount, ts⟩) ∧
      lookupSig (updateSig seen sig ⟨amount, ts⟩) sig = some ⟨amount, ts⟩ ∧
      ∀ sig2, sig2 ≠ sig →
        lookupSig (updateSig seen sig ⟨amount, ts⟩) sig2 = lookupSig seen sig2) ∧
    (∀ e : SeenEntry, lookupSig seen sig = some e → e.price ≤ amount →
      evaluate_and_update seen sig amount ts = (ActionDecision.UNCHANGED, seen)) := by
  refine ⟨fun h => by simp [evaluate_and_update, h], fun e he hlt => ?_, fun e he hge => ?_⟩
  · exact ⟨by simp [evaluate_and_update, he, hlt],
      lookupSig_update_self seen sig e ⟨amount, ts⟩ he,
      fun sig2 h2 => lookupSig_update_ne seen sig sig2 ⟨amount, ts⟩ h2⟩
  · simp [evaluate_and_update, he, not_lt.mpr hge]

/-- C2: equal or higher amounts never mutate a stored entry, and after a
signature enters the store at amount `a0`, any sequence of further
evaluations for it leaves its stored price at the minimum of all observed
amounts. -/
theorem stored_price_is_min (seen : SeenStore) (sig : String) (a0 : ℤ) (ts0 : String)
    (evs : List (ℤ × String)) (h : lookupSig seen sig = none) :
    (∀ (s : SeenStore) (e : SeenEntry) (a : ℤ) (ts : String),
        lookupSig s sig = some e → e.price ≤ a →
        evaluate_and_update s sig a ts = (ActionDecision.UNCHANGED, s)) ∧
    ∃ t2, lookupSig (evalSeq sig (evaluate_and_update seen sig a0 ts0).2 evs) sig
        = some ⟨(evs.map Prod.fst).foldl min a0, t2⟩ := by
  constructor
  · intro s e a ts he hge
    simp [evaluate_and_update, he, not_lt.mpr hge]
  · have h1 : lookupSig (evaluate_and_update seen sig a0 ts0).2 sig = some ⟨a0, ts0⟩ := by
      have h2 := lookupSig_append_self seen sig ⟨a0, ts0⟩ h
      simpa [evaluate_and_update, h] using h2
    exact lookupSig_evalSeq_min sig evs _ a0 ts0 h1

/-- C2 witness: a signature entering at 5 and then observed at 7, 3, 4 is
stored at price 3. -/
theorem stored_price_is_min_witness :
    ∃ t2, lookupSig (evalSeq "s" (evaluate_and_update [] "s" 5 "t0").2
        [(7, "t1"), (3, "t2"), (4, "t3")]) "s" = some ⟨3, t2⟩ := by
  obtain ⟨t2, h2⟩ :=
    (stored_price_is_min [] "s" 5 "t0" [(7, "t1"), (3, "t2"), (4, "t3")] rfl).2
  have h3 : (List.map Prod.fst [((7 : ℤ), "t1"), ((3 : ℤ), "t2"), ((4 : ℤ), "t3")]).foldl min 5
      = 3 := by
    simp [min_def]
  rw [h3] at h2
  exact ⟨t2, h2⟩

/-- C3 counterexample: with `MAX_SEEN_ITEMS = 0` the Python slice `[-0:]`
keeps the whole store, so a nonempty store still has more than
`MAX_SEEN_ITEMS` entries after save. -/
theorem save_seen_items_zero_keeps_all :
    save_seen_items [("A", ⟨1000, "t1"⟩)] 0 = [("A", ⟨1000, "t1"⟩)] ∧
    ¬ ((save_seen_items [("A", ⟨1000, "t1"⟩)] 0).length ≤ 0) :=
  ⟨rfl, by decide⟩

/-- C3 (amended to `MAX_SEEN_ITEMS ≥ 1`): after save the store holds at most
`MAX_SEEN_ITEMS` entries and the retained entries are precisely the final
suffix of the store in insertion order. -/
theorem save_seen_items_bounded (seen : SeenStore) (maxSeenItems : ℕ)
    (h : 1 ≤ maxSeenItems) :
    (save_seen_items seen maxSeenItems).length ≤ maxSeenItems ∧
    save_seen_items seen maxSeenItems = seen.drop (seen.length - maxSeenItems) ∧
    seen.take (seen.length - maxSeenItems) ++ save_seen_items seen maxSeenItems = seen := by
  have hne : maxSeenItems ≠ 0 := by omega
  refine ⟨?_, by simp [save_seen_items, hne], ?_⟩
  · simp only [save_seen_items, hne, if_false, List.length_drop]
    omega
  · simp [save_seen_items, hne, List.take_append_drop]

/-- C3 witness: three sequential NEW insertions A, B, C with
`MAX_SEEN_ITEMS = 2` retain exactly B and C after save. -/
theorem save_seen_items_bounded_witness :
    save_seen_items (evaluate_and_update (evaluate_and_update
        (evaluate_and_update [] "A" 1 "t1").2 "B" 2 "t2").2 "C" 3 "t3").2 2
      = [("B", ⟨2, "t2"⟩), ("C", ⟨3, "t3"⟩)] := by
  have h := (save_seen_items_bounded (evaluate_and_update (evaluate_and_update
      (evaluate_and_update [] "A" 1 "t1").2 "B" 2 "t2").2 "C" 3 "t3").2 2 (by decide)).2.1
  rw [h]
  rfl

/-- C4: what the code actually does on a fetch failure.  With no cache the
result is the 145.0 fallback, as the claim says; but with a stale cached
150.0 the result is again 145.0 — `get_usd_to_jpy_rate` swallows the
failure and returns the fallback, which the caller then caches — where the
claim says the cached 150.0 would be returned. -/
theorem rate_fallback_on_fetch_failure :
    get_usd_to_jpy_rate RateFetchOutcome.requestError = 145 ∧
    get_exchange_rate_with_fallback ⟨none, none⟩ 5000 RateFetchOutcome.requestError
      = (145, ⟨some 145, some 5000⟩) ∧
    get_exchange_rate_with_fallback ⟨some 150, some 0⟩ 5000 RateFetchOutcome.requestError
      = (145, ⟨some 145, some 5000⟩) ∧
    get_exchange_rate_with_fallback ⟨some 150, some 0⟩ 5000 RateFetchOutcome.parseError
      = (145, ⟨some 145, some 5000⟩) := by
  refine ⟨rfl, rfl, ?_, ?_⟩ <;> (
    simp only [get_exchange_rate_with_fallback, EXCHANGE_RATE_CACHE_DURATION]
    norm_num [get_usd_to_jpy_rate])

/-- C5: the pattern-1-first parsing policy and the documented scenarios.
Whenever the bare-yen pattern matches, the result is independent of the
rate; when neither pattern matches, both outputs are absent; and the four
scenarios hold: bare-yen text parses without the rate, a dollar amount is
converted at the rate and truncated toward zero, a yen-glyph amount is
taken as-is, unrecognizable text fails, and displays group thousands with
a period. -/
theorem convert_price_scenarios :
    (∀ (text : String) (rate rate2 : ℚ) (run : List Char),
        searchYen text.data = some run →
        convert_price_to_yen text rate = convert_price_to_yen text rate2) ∧
    (∀ (text : String) (rate : ℚ),
        searchYen text.data = none → searchSym text.data = none →
        convert_price_to_yen text rate = (none, none)) ∧
    (∀ rate : ℚ, convert_price_to_yen "9,800 yen" rate = (some "¥9.800", some 9800)) ∧
    convert_price_to_yen "$120" 150 = (some "¥18.000", some 18000) ∧
    (∀ rate : ℚ, convert_price_to_yen "¥5,000" rate = (some "¥5.000", some 5000)) ∧
    (∀ rate : ℚ, convert_price_to_yen "Sold Out" rate = (none, none)) := by
  refine ⟨fun text rate rate2 run h => by simp [convert_price_to_yen, h],
    fun text rate h1 h2 => by simp [convert_price_to_yen, h1, h2],
    fun rate => rfl, ?_, fun rate => ?_, fun rate => rfl⟩
  · have h1 : searchYen "$120".data = none := rfl
    have h2 : searchSym "$120".data = some (CurrencySymbol.dollarSign, ['1', '2', '0']) := rfl
    have h3 : stripCommas ['1', '2', '0'] = ['1', '2', '0'] := rfl
    have h4 : digitsToNat ['1', '2', '0'] = 120 := rfl
    have hmul : ((((120 : ℕ) : ℤ)) : ℚ) * 150 = ((18000 : ℤ) : ℚ) := by push_cast; norm_num
    have h5 : truncTowardZero (((((120 : ℕ) : ℤ)) : ℚ) * 150) = 18000 := by
      rw [hmul, truncTowardZero_intCast]
    simp only [convert_price_to_yen, h1, h2, h3, h4, h5, List.isEmpty_cons, if_false,
      Bool.false_eq_true]
    rfl
  · have h1 : searchYen "¥5,000".data = none := rfl
    have h2 : searchSym "¥5,000".data = some (CurrencySymbol.yenSign, ['5', ',', '0', '0', '0']) := rfl
    simp only [convert_price_to_yen, h1, h2]
    rfl

set_option maxRecDepth 8192 in
/-- C6 counterexample: the hash input of line 439 is the *translated*
`full_title`, not the upstream title, so the same listing (same upstream
title `Cat Figure` and image URL) gets different signatures in a cycle
where translation succeeds (full title `Neko Figure (Cat Figure)`) and in
a cycle where it falls back (full title `Cat Figure`). -/
theorem item_signature_translation_dependent :
    item_signature (translate_title_with_fallback "Cat Figure" (some "Neko Figure"))
        "https://buyee.jp/img/x.jpg" = "16c448af32190d44bf723b64ea5702a6" ∧
    item_signature (translate_title_with_fallback "Cat Figure" none)
        "https://buyee.jp/img/x.jpg" = "2c0f636b2fe2efed2688f22e36b91569" ∧
    item_signature (translate_title_with_fallback "Cat Figure" (some "Neko Figure"))
        "https://buyee.jp/img/x.jpg"
      ≠ item_signature (translate_title_with_fallback "Cat Figure" none)
          "https://buyee.jp/img/x.jpg" := by
  refine ⟨by decide, by decide, by decide⟩

/-- C6 (amended): the signature is the MD5 hex digest of
lowercase(full_title) + image_url where full_title is the
translation-processed title; it agrees with the claim's formula whenever
translation falls back (or leaves the title unchanged), and it is stable
across cycles exactly when both cycles' translation steps produce the same
full title. -/
theorem item_signature_follows_translated_title (raw_title price_text url img : String)
    (tr : Option String) :
    (build_item raw_title price_text url img tr).title
        = translate_title_with_fallback raw_title tr ∧
    item_signature (build_item raw_title price_text url img tr).title img
        = md5hex (strBytes (pyLower (translate_title_with_fallback raw_title tr) ++ img)) ∧
    (∀ tr2 : Option String,
        translate_title_with_fallback raw_title tr = translate_title_with_fallback raw_title tr2 →
        item_signature (build_item raw_title price_text url img tr).title img
          = item_signature (build_item raw_title price_text url img tr2).title img) ∧
    (tr = none →
        item_signature (build_item raw_title price_text url img tr).title img
          = md5hex (strBytes (pyLower raw_title ++ img))) := by
  refine ⟨rfl, rfl, fun tr2 h => ?_, fun h => by subst h; rfl⟩
  show item_signature (translate_title_with_fallback raw_title tr) img
      = item_signature (translate_title_with_fallback raw_title tr2) img
  rw [h]

/-- C7: re-processing an identical record against the store the first
processing produced decides UNCHANGED and modifies neither the store nor
the accumulated batch. -/
theorem reprocess_unchanged (rate : ℚ) (ts ts2 : String) (item : Item)
    (seen : SeenStore) (acc : List ActionableItem) :
    (∀ (sig : String) (amount : ℤ),
        evaluate_and_update (evaluate_and_update seen sig amount ts).2 sig amount ts2
          = (ActionDecision.UNCHANGED, (evaluate_and_update seen sig amount ts).2)) ∧
    process_item rate ts2 item (process_item rate ts item seen acc).1
        (process_item rate ts item seen acc).2
      = process_item rate ts item seen acc := by
  refine ⟨fun sig amount => eval_after_eval seen sig amount ts ts2, ?_⟩
  rcases hconv : convert_price_to_yen item.price rate with ⟨f, n⟩
  cases f with
  | none => simp [process_item, hconv]
  | some fp =>
    cases n with
    | none => simp [process_item, hconv]
    | some np =>
      by_cases h0 : fp = "" ∨ np = 0
      · simp [process_item, hconv, h0]
      · by_cases hu : item.url = "" ∨ item.image_url = ""
        · simp [process_item, hconv, h0, hu]
        · have hE := eval_after_eval seen (item_signature item.title item.image_url) np ts ts2
          rcases hev : evaluate_and_update seen (item_signature item.title item.image_url) np ts
            with ⟨d, s2⟩
          rw [hev] at hE
          cases d <;> simp [process_item, hconv, h0, hu, hev, hE]

/-- C8: what the retry loop actually does when every attempt fails with
`max_retries = 4` and `delay = 2`: it raises after sleeping 2, 4, 6
seconds — the linear schedule `delay * (attempt + 1)` — and no geometric
schedule `delay * m ^ k` matches those sleeps. -/
theorem fetch_with_retry_backoff_shape :
    fetch_with_retry (fun _ => (none : Option Unit)) 4 2
        = (RetryOutcome.raised, [2 * 1, 2 * 2, 2 * 3]) ∧
    ¬ ∃ m : ℚ, ((fetch_with_retry (fun _ => (none : Option Unit)) 4 2).2.map
          (Nat.cast : ℕ → ℚ))
        = [2 * m ^ 0, 2 * m ^ 1, 2 * m ^ 2] := by
  constructor
  · rfl
  · rintro ⟨m, hm⟩
    have hl : (fetch_with_retry (fun _ => (none : Option Unit)) 4 2).2 = [2, 4, 6] := rfl
    rw [hl] at hm
    simp only [List.map_cons, List.map_nil, List.cons.injEq, and_true] at hm
    obtain ⟨h1, h2, h3⟩ := hm
    have hm2 : m = 2 := by
      have h2b : (4 : ℚ) = 2 * m := by
        rw [pow_one] at h2
        exact_mod_cast h2
      linarith
    rw [hm2] at h3
    norm_num at h3

/-! ## Accumulator lemmas for the discovery loop -/

theorem process_item_acc (rate : ℚ) (ts : String) (item : Item) (seen : SeenStore)
    (acc : List ActionableItem) :
    process_item rate ts item seen acc
      = ((process_item rate ts item seen []).1,
         acc ++ (process_item rate ts item seen []).2) := by
  rcases hconv : convert_price_to_yen item.price rate with ⟨f, n⟩
  cases f with
  | none => simp [process_item, hconv]
  | some fp =>
    cases n with
    | none => simp [process_item, hconv]
    | some np =>
      by_cases h0 : fp = "" ∨ np = 0
      · simp [process_item, hconv, h0]
      · by_cases hu : item.url = "" ∨ item.image_url = ""
        · simp [process_item, hconv, h0, hu]
        · rcases hev : evaluate_and_update seen (item_signature item.title item.image_url) np ts
            with ⟨d, s2⟩
          cases d <;> simp [process_item, hconv, h0, hu, hev]

theorem process_items_acc (rate : ℚ) (l : List (Item × String)) :
    ∀ (seen : SeenStore) (acc : List ActionableItem),
      process_items rate seen acc l
        = ((process_items rate seen [] l).1, acc ++ (process_items rate seen [] l).2) := by
  induction l with
  | nil =>
    intro seen acc
    simp [process_items]
  | cons p rest ih =>
    intro seen acc
    obtain ⟨item, ts⟩ := p
    simp only [process_items]
    rw [process_item_acc rate ts item seen acc]
    rw [ih ((process_item rate ts item seen []).1) (acc ++ (process_item rate ts item seen []).2),
      ih ((process_item rate ts item seen []).1) ((process_item rate ts item seen []).2)]
    simp [List.append_assoc]

theorem process_items_append (rate : ℚ) (l1 l2 : List (Item × String)) :
    ∀ seen : SeenStore,
      process_items rate seen [] (l1 ++ l2)
        = ((process_items rate (process_items rate seen [] l1).1 [] l2).1,
           (process_items rate seen [] l1).2
             ++ (process_items rate (process_items rate seen [] l1).1 [] l2).2) := by
  induction l1 with
  | nil =>
    intro seen
    simp [process_items]
  | cons p rest ih =>
    intro seen
    obtain ⟨item, ts⟩ := p
    simp only [List.cons_append, process_items, List.append_eq]
    rw [process_items_acc rate (rest ++ l2) ((process_item rate ts item seen []).1)
        ((process_item rate ts item seen []).2),
      process_items_acc rate rest ((process_item rate ts item seen []).1)
        ((process_item rate ts item seen []).2),
      ih ((process_item rate ts item seen []).1)]
    simp [List.append_assoc]

theorem send_batch_eq_reverse (items : List ActionableItem) :
    send_batch items = items.reverse := by
  cases items with
  | nil => rfl
  | cons a t => simp [send_batch]

theorem reverse_getLast_eq_head (l : List ActionableItem) :
    l.reverse.getLast? = l.head? := by
  cases l with
  | nil => rfl
  | cons a t => simp [List.getLast?_concat]

/-- C9: the batch accumulated by the discovery loop follows source order —
processing a concatenation of record lists concatenates, in order, the
batches each list produces — and the sequence emitted to the notification
collaborator is exactly its reverse, so the head of the accumulated batch
(the most recent listing when the source is newest-first) is emitted
last. -/
theorem discovery_emit_order (rate : ℚ) (seen : SeenStore) (l1 l2 : List (Item × String)) :
    (process_items rate seen [] (l1 ++ l2)).2
      = (process_items rate seen [] l1).2
        ++ (process_items rate (process_items rate seen [] l1).1 [] l2).2 ∧
    send_batch (process_items rate seen [] (l1 ++ l2)).2
      = ((process_items rate seen [] (l1 ++ l2)).2).reverse ∧
    (send_batch (process_items rate seen [] (l1 ++ l2)).2).getLast?
      = ((process_items rate seen [] (l1 ++ l2)).2).head? := by
  refine ⟨by rw [process_items_append], send_batch_eq_reverse _, ?_⟩
  rw [send_batch_eq_reverse]
  exact reverse_getLast_eq_head _

/-! ## The zero-price falsiness check (C10) -/

theorem truncTowardZero_nonneg (q : ℚ) (h : 0 ≤ q) : 0 ≤ truncTowardZero q := by
  have hnum : 0 ≤ q.num := Rat.num_nonneg.mpr h
  exact Int.tdiv_nonneg hnum (by positivity)

theorem convert_price_nonneg (text : String) (rate : ℚ) (h : 0 ≤ rate) (n : ℤ)
    (hn : (convert_price_to_yen text rate).2 = some n) : 0 ≤ n := by
  unfold convert_price_to_yen at hn
  cases hy : searchYen text.data with
  | some run =>
    rw [hy] at hn
    by_cases he : (stripCommas run).isEmpty
    · simp [he] at hn
    · simp only [he, if_false, Bool.false_eq_true] at hn
      simp only [Prod.snd, Option.some.injEq] at hn
      subst hn
      positivity
  | none =>
    rw [hy] at hn
    cases hs : searchSym text.data with
    | none => rw [hs] at hn; simp at hn
    | some r =>
      obtain ⟨sym, run⟩ := r
      rw [hs] at hn
      by_cases he : (stripCommas run).isEmpty
      · simp [he] at hn
      · simp only [he, if_false, Bool.false_eq_true] at hn
        simp only [Prod.snd, Option.some.injEq] at hn
        subst hn
        cases sym with
        | yenSign => positivity
        | usDollar =>
          refine truncTowardZero_nonneg _ ?_
          positivity
        | dollarSign =>
          refine truncTowardZero_nonneg _ ?_
          positivity

/-- A successful conversion returns the display rendering of the very
amount it returns: every branch of `convert_price_to_yen` builds the pair
from one `yen` value. -/
theorem convert_price_display (text : String) (rate : ℚ) (fp : String) (np : ℤ)
    (h : convert_price_to_yen text rate = (some fp, some np)) : fp = yenDisplay np := by
  unfold convert_price_to_yen at h
  cases hy : searchYen text.data with
  | some run =>
    rw [hy] at h
    by_cases he : (stripCommas run).isEmpty
    · simp [he] at h
    · simp only [he, if_false, Bool.false_eq_true, Prod.mk.injEq, Option.some.injEq] at h
      obtain ⟨h1, h2⟩ := h
      subst h2
      exact h1.symm
  | none =>
    rw [hy] at h
    cases hs : searchSym text.data with
    | none => rw [hs] at h; simp at h
    | some r =>
      obtain ⟨sym, run⟩ := r
      rw [hs] at h
      by_cases he : (stripCommas run).isEmpty
      · simp [he] at h
      · simp only [he, if_false, Bool.false_eq_true, Prod.mk.injEq, Option.some.injEq] at h
        obtain ⟨h1, h2⟩ := h
        subst h2
        exact h1.symm

/-- C10 counterexample: a record priced in dollars with a negative exchange
rate parses to a negative amount; the amount is nonzero, so Python's falsy
check lets it through, it is evaluated as NEW, stored and emitted with a
price below 1. -/
theorem discovery_stores_negative_price :
    (process_item (-1 : ℚ) "ts" ⟨"T", "$5", "http://u", "http://i"⟩ [] []).1
      = [(item_signature "T" "http://i", ⟨-5, "ts"⟩)] ∧
    (process_item (-1 : ℚ) "ts" ⟨"T", "$5", "http://u", "http://i"⟩ [] []).2
      = [("T", "http://u", "http://i", "¥-5", "ts")] ∧
    ¬ (1 ≤ (-5 : ℤ)) := by
  have h1 : searchYen "$5".data = none := rfl
  have h2 : searchSym "$5".data = some (CurrencySymbol.dollarSign, ['5']) := rfl
  have hmul : ((((5 : ℕ) : ℤ)) : ℚ) * (-1) = (((-5 : ℤ)) : ℚ) := by push_cast; norm_num
  have h5 : truncTowardZero (((((5 : ℕ) : ℤ)) : ℚ) * (-1)) = -5 := by
    rw [hmul, truncTowardZero_intCast]
  have hconv : convert_price_to_yen "$5" (-1) = (some "¥-5", some (-5)) := by
    simp only [convert_price_to_yen, h1, h2]
    norm_num [h5]
    rfl
  refine ⟨?_, ?_, by decide⟩ <;>
    simp [process_item, hconv, evaluate_and_update, lookupSig]

/-- C10 (amended): a record whose price text parses to exactly 0 is dropped
exactly as a parse failure is — the store and the batch are untouched — and,
provided the exchange rate is nonnegative, every entry the discovery step
adds to or updates in a store whose entries all have price at least 1 again
has price at least 1, and every ActionableItem the step emits carries the
display of a parsed amount that is at least 1. -/
theorem zero_priced_records_dropped (rate : ℚ) (ts : String) (item : Item)
    (seen : SeenStore) (acc : List ActionableItem)
    (hrate : 0 ≤ rate) (hseen : ∀ p ∈ seen, 1 ≤ p.2.price) :
    ((convert_price_to_yen item.price rate).2 = some 0 →
        process_item rate ts item seen acc = (seen, acc)) ∧
    ((convert_price_to_yen item.price rate).2 = none →
        process_item rate ts item seen acc = (seen, acc)) ∧
    (∀ p ∈ (process_item rate ts item seen acc).1, 1 ≤ p.2.price) ∧
    ∀ it ∈ (process_item rate ts item seen acc).2, it ∈ acc ∨
      ∃ np : ℤ, 1 ≤ np ∧ (convert_price_to_yen item.price rate).2 = some np ∧
        it = (item.title, item.url, item.image_url, yenDisplay np, ts) := by
  rcases hconv : convert_price_to_yen item.price rate with ⟨f, n⟩
  refine ⟨fun hn => ?_, fun hn => ?_, ?_, ?_⟩
  · simp only [hconv] at hn
    subst hn
    cases f with
    | none => simp [process_item, hconv]
    | some fp => simp [process_item, hconv]
  · simp only [hconv] at hn
    subst hn
    cases f with
    | none => simp [process_item, hconv]
    | some fp => simp [process_item, hconv]
  · cases f with
    | none => simpa [process_item, hconv] using hseen
    | some fp =>
      cases n with
      | none => simpa [process_item, hconv] using hseen
      | some np =>
        have hnp : 0 ≤ np := convert_price_nonneg item.price rate hrate np (by rw [hconv])
        by_cases h0 : fp = "" ∨ np = 0
        · simpa [process_item, hconv, h0] using hseen
        · have hnp1 : 1 ≤ np := by
            rcases lt_or_eq_of_le hnp with hlt | heq
            · omega
            · exact absurd heq.symm (fun hx => h0 (Or.inr hx))
          by_cases hu : item.url = "" ∨ item.image_url = ""
          · simpa [process_item, hconv, h0, hu] using hseen
          · cases hl : lookupSig seen (item_signature item.title item.image_url) with
            | none =>
              have hstore : (process_item rate ts item seen acc).1
                  = seen ++ [(item_signature item.title item.image_url, ⟨np, ts⟩)] := by
                simp [process_item, hconv, h0, hu, evaluate_and_update, hl]
              intro p hp
              rw [hstore] at hp
              rcases List.mem_append.mp hp with hp2 | hp2
              · exact hseen p hp2
              · rw [List.mem_singleton] at hp2
                subst hp2
                exact hnp1
            | some e =>
              by_cases hc : np < e.price
              · have hstore : (process_item rate ts item seen acc).1
                    = updateSig seen (item_signature item.title item.image_url) ⟨np, ts⟩ := by
                  simp [process_item, hconv, h0, hu, evaluate_and_update, hl, hc]
                intro p hp
                rw [hstore] at hp
                rcases mem_updateSig seen (item_signature item.title item.image_url)
                    ⟨np, ts⟩ p hp with hp2 | hp2
                · subst hp2; exact hnp1
                · exact hseen p hp2
              · have hstore : (process_item rate ts item seen acc).1 = seen := by
                  simp [process_item, hconv, h0, hu, evaluate_and_update, hl, hc]
                intro p hp
                rw [hstore] at hp
                exact hseen p hp
  · cases f with
    | none =>
      intro it hit
      exact Or.inl (by simpa [process_item, hconv] using hit)
    | some fp =>
      cases n with
      | none =>
        intro it hit
        exact Or.inl (by simpa [process_item, hconv] using hit)
      | some np =>
        by_cases h0 : fp = "" ∨ np = 0
        · intro it hit
          exact Or.inl (by simpa [process_item, hconv, h0] using hit)
        · have hnp : 0 ≤ np := convert_price_nonneg item.price rate hrate np (by rw [hconv])
          have hnp1 : 1 ≤ np := by
            rcases lt_or_eq_of_le hnp with hlt | heq
            · omega
            · exact absurd heq.symm (fun hx => h0 (Or.inr hx))
          have hfp : fp = yenDisplay np := convert_price_display item.price rate fp np hconv
          by_cases hu : item.url = "" ∨ item.image_url = ""
          · intro it hit
            exact Or.inl (by simpa [process_item, hconv, h0, hu] using hit)
          · cases hl : lookupSig seen (item_signature item.title item.image_url) with
            | none =>
              have hbatch : (process_item rate ts item seen acc).2
                  = acc ++ [(item.title, item.url, item.image_url, fp, ts)] := by
                simp [process_item, hconv, h0, hu, evaluate_and_update, hl]
              intro it hit
              rw [hbatch] at hit
              rcases List.mem_append.mp hit with h2 | h2
              · exact Or.inl h2
              · rw [List.mem_singleton] at h2
                refine Or.inr ⟨np, hnp1, rfl, ?_⟩
                rw [h2, hfp]
            | some e =>
              by_cases hc : np < e.price
              · have hbatch : (process_item rate ts item seen acc).2
                    = acc ++ [(item.title, item.url, item.image_url, fp, ts)] := by
                  simp [process_item, hconv, h0, hu, evaluate_and_update, hl, hc]
                intro it hit
                rw [hbatch] at hit
                rcases List.mem_append.mp hit with h2 | h2
                · exact Or.inl h2
                · rw [List.mem_singleton] at h2
                  refine Or.inr ⟨np, hnp1, rfl, ?_⟩
                  rw [h2, hfp]
              · have hbatch : (process_item rate ts item seen acc).2 = acc := by
                  simp [process_item, hconv, h0, hu, evaluate_and_update, hl, hc]
                intro it hit
                rw [hbatch] at hit
                exact Or.inl hit

/-- C10 witness: a record priced `0 yen` leaves an empty store and batch
untouched, and processing a `9,800 yen` record leaves every stored price at
least 1 and every emitted item carrying the display of an amount at least
1. -/
theorem zero_priced_records_dropped_witness :
    process_item 145 "t" ⟨"T", "0 yen", "http://u", "http://i"⟩ [] [] = ([], []) ∧
    (∀ p ∈ (process_item 145 "t" ⟨"T2", "9,800 yen", "http://u", "http://i"⟩ [] []).1,
      1 ≤ p.2.price) ∧
    ∀ it ∈ (process_item 145 "t" ⟨"T2", "9,800 yen", "http://u", "http://i"⟩ [] []).2,
      it ∈ ([] : List ActionableItem) ∨
        ∃ np : ℤ, 1 ≤ np ∧ (convert_price_to_yen "9,800 yen" 145).2 = some np ∧
          it = ("T2", "http://u", "http://i", yenDisplay np, "t") := by
  refine ⟨?_, ?_, ?_⟩
  · exact (zero_priced_records_dropped 145 "t" ⟨"T", "0 yen", "http://u", "http://i"⟩ [] []
      (by norm_num) (by simp)).1 rfl
  · exact (zero_priced_records_dropped 145 "t" ⟨"T2", "9,800 yen", "http://u", "http://i"⟩ [] []
      (by norm_num) (by simp)).2.2.1
  · exact (zero_priced_records_dropped 145 "t" ⟨"T2", "9,800 yen", "http://u", "http://i"⟩ [] []
      (by norm_num) (by simp)).2.2.2

end MercariBot
